import Mathlib

/-!
Shallow embedding of the `extract` tool: an indexed FASTA subsequence
extractor (`src/sequences.rs`, `src/cli.rs`, `src/main.rs`).  Sequence data is
modelled as lists of byte values (`List Nat`), FASTA files as lists of text
lines, and fallible Rust code as `Except`/`Option` values.  Panics raised via
`expect` are modelled as `Except.error` carrying the panic message.
-/

namespace Extract

/-- Bytes of an ASCII string, the unit in which sequence data is stored
(`Vec<u8>` in the Rust code). -/
def strBytes (s : String) : List Nat := s.toList.map Char.toNat

/-- The IUPAC nucleotide complement table of the `noodles` dependency's
`Sequence::complement` (upper- and lowercase bases and ambiguity codes,
case-preserving).  A byte outside the table has no complement: the
complement iterator yields an error for it, which `Sequences::extract`
propagates through `collect::<Result<_, _>>()?`. -/
def complementTable : List (Nat × Nat) :=
  [(65, 84), (67, 71), (71, 67), (84, 65), (85, 65),
   (87, 87), (83, 83), (77, 75), (75, 77), (82, 89), (89, 82),
   (66, 86), (68, 72), (72, 68), (86, 66), (78, 78),
   (97, 116), (99, 103), (103, 99), (116, 97), (117, 97),
   (119, 119), (115, 115), (109, 107), (107, 109), (114, 121), (121, 114),
   (98, 118), (100, 104), (104, 100), (118, 98), (110, 110)]

/-- Complement of one byte, `none` when the byte is not in the table. -/
def complementByte (b : Nat) : Option Nat :=
  complementTable.lookup b

/-- Complement of a byte when defined, the byte itself otherwise (used only
to state theorems; the code never passes an out-of-table byte through). -/
def complOrId (b : Nat) : Nat := (complementByte b).getD b

/-- One step of the complement iterator: a table byte yields its complement,
any other byte yields an error carrying the offending byte
(`ComplementError`). -/
def stepC (b : Nat) : Except Nat Nat :=
  match complementByte b with
  | some c => Except.ok c
  | none => Except.error b

/-- `collect::<Result<Vec<_>, _>>()` over a list of fallible items: stops at
the first error, otherwise returns all results in order. -/
def mapExcept (f : α → Except ε β) : List α → Except ε (List β)
  | [] => Except.ok []
  | a :: l =>
    match f a with
    | Except.error e => Except.error e
    | Except.ok b =>
      match mapExcept f l with
      | Except.error e => Except.error e
      | Except.ok bs => Except.ok (b :: bs)

/-- `record.sequence().complement().rev().collect::<Result<_, _>>()` from
`Sequences::extract`: the complement iterator is reversed, so items are
complemented (and the first failure found) in reversed order. -/
def revComp (s : List Nat) : Except Nat (List Nat) :=
  mapExcept stepC s.reverse

/-- Is `b` a UTF-8 continuation byte (`0x80..=0xBF`)? -/
def contByte (b : Nat) : Bool := 128 ≤ b && b ≤ 191

/-- UTF-8 validity of a byte list, as checked by Rust's `str::from_utf8`
(RFC 3629: no overlong forms, no surrogates, maximum U+10FFFF). -/
def validUtf8 : List Nat → Bool
  | [] => true
  | b :: rest =>
    if b ≤ 127 then validUtf8 rest
    else
      match rest with
      | [] => false
      | b1 :: rest1 =>
        if 194 ≤ b && b ≤ 223 then contByte b1 && validUtf8 rest1
        else
          match rest1 with
          | [] => false
          | b2 :: rest2 =>
            if b = 224 then
              (160 ≤ b1 && b1 ≤ 191) && contByte b2 && validUtf8 rest2
            else if (225 ≤ b && b ≤ 236) || b = 238 || b = 239 then
              contByte b1 && contByte b2 && validUtf8 rest2
            else if b = 237 then
              (128 ≤ b1 && b1 ≤ 159) && contByte b2 && validUtf8 rest2
            else
              match rest2 with
              | [] => false
              | b3 :: rest3 =>
                if b = 240 then
                  (144 ≤ b1 && b1 ≤ 191) && contByte b2 && contByte b3 &&
                    validUtf8 rest3
                else if 241 ≤ b && b ≤ 243 then
                  contByte b1 && contByte b2 && contByte b3 && validUtf8 rest3
                else if b = 244 then
                  (128 ≤ b1 && b1 ≤ 143) && contByte b2 && contByte b3 &&
                    validUtf8 rest3
                else false

/-! Region parsing (`Sequences::get_regions` and the `noodles` region
grammar it relies on).  A region file is modelled as its list of lines. -/

/-- The character `-`. -/
def dashChar : Char := Char.ofNat 45

/-- The character `:`. -/
def colonChar : Char := Char.ofNat 58

/-- The character `>`. -/
def gtChar : Char := Char.ofNat 62

/-- The character space. -/
def spaceChar : Char := Char.ofNat 32

/-- Split at the last occurrence of `c` (Rust `rsplit_once`): `none` when `c`
does not occur. -/
def splitLastOn (c : Char) : List Char → Option (List Char × List Char)
  | [] => none
  | a :: rest =>
    match splitLastOn c rest with
    | some (pre, suf) => some (a :: pre, suf)
    | none => if a = c then some ([], rest) else none

/-- Split at the first occurrence of `c` (Rust `split_once`): `none` when `c`
does not occur. -/
def splitFirstOn (c : Char) : List Char → Option (List Char × List Char)
  | [] => none
  | a :: rest =>
    if a = c then some ([], rest)
    else (splitFirstOn c rest).map (fun p => (a :: p.1, p.2))

/-- Decimal digit value of a character, `none` for a non-digit. -/
def charDigit (c : Char) : Option Nat :=
  if 48 ≤ c.toNat ∧ c.toNat ≤ 57 then some (c.toNat - 48) else none

/-- Accumulate decimal digits; fails on any non-digit character. -/
def digitsToNatAux : List Char → Nat → Option Nat
  | [], acc => some acc
  | c :: rest, acc =>
    match charDigit c with
    | some d => digitsToNatAux rest (acc * 10 + d)
    | none => none

/-- `noodles` `Position` parsing: a nonempty all-digit string denoting a
nonzero 1-based coordinate. -/
def parsePos (l : List Char) : Option Nat :=
  if l.isEmpty then none
  else
    match digitsToNatAux l 0 with
    | some n => if n = 0 then none else some n
    | none => none

/-- A `noodles` region: reference name plus optional 1-based inclusive
bounds; an absent end means the rest of the record, absent bounds the whole
record. -/
structure Region where
  name : String
  start? : Option Nat
  stop? : Option Nat
deriving Repr, DecidableEq

/-- `noodles` `Interval` parsing: `start-end` or a bare `start`. -/
def parseInterval (l : List Char) : Option (Option Nat × Option Nat) :=
  match splitFirstOn dashChar l with
  | none => (parsePos l).map (fun p => (some p, none))
  | some (a, b) =>
    match parsePos a, parsePos b with
    | some pa, some pb => some (some pa, some pb)
    | _, _ => none

/-- `noodles` `Region` parsing: empty input fails; otherwise the text after
the last `:` is parsed as an interval, and when that fails (or there is no
`:`) the whole text is the reference name. -/
def parseRegion (s : String) : Option Region :=
  if s.toList.isEmpty then none
  else
    match splitLastOn colonChar s.toList with
    | none => some ⟨s, none, none⟩
    | some (pre, suf) =>
      match parseInterval suf with
      | some (st, en) => some ⟨String.mk pre, st, en⟩
      | none => some ⟨s, none, none⟩

/-- One line of the regions file, as in `Sequences::get_regions`: an empty
line is dropped; a leading `-` is stripped and sets the reverse flag; a line
whose remainder fails to parse is dropped. -/
def parseLine (line : String) : Option (Region × Bool) :=
  match line.toList with
  | [] => none
  | c :: rest =>
    if c = dashChar then (parseRegion (String.mk rest)).map (fun r => (r, true))
    else (parseRegion line).map (fun r => (r, false))

/-- `Sequences::get_regions`: parse each line, skipping the ones that fail,
preserving line order. -/
def getRegions (lines : List String) : List (Region × Bool) :=
  lines.filterMap parseLine

/-- `noodles` rendering of a region (`region.to_string()`), used by `query`
as the name of the record it returns. -/
def regionToString (r : Region) : String :=
  match r.start?, r.stop? with
  | none, _ => r.name
  | some s, none => r.name ++ ":" ++ toString s
  | some s, some e => r.name ++ ":" ++ toString s ++ "-" ++ toString e

/-! The FASTA index (`.fai`) and the seek-based range query
(`Sequences::get_reader` and the `noodles` indexed reader it relies on). -/

/-- One `.fai` entry: record name, total base count, byte offset of the
first sequence byte, bases per body line, and bytes per body line including
the terminator. -/
structure IndexEntry where
  name : String
  length : Nat
  offset : Nat
  lineBases : Nat
  lineWidth : Nat
deriving Repr, DecidableEq

/-- Errors of the extraction pipeline: unknown reference name, coordinates
outside the record, an out-of-table byte under complement, and a malformed
collection file. -/
inductive ExtractError where
  | notFound (name : String)
  | range (name : String) (start stop : Nat)
  | complement (b : Nat)
  | format
deriving Repr, DecidableEq

/-- Close the entry being scanned, failing on a zero-length record. -/
def finalizeEntry (cur : Option (IndexEntry × Option Nat)) (acc : List IndexEntry) :
    Option (List IndexEntry) :=
  match cur with
  | none => some acc
  | some (e, _) => if e.length = 0 then none else some (acc ++ [e])

/-- Scan the collection file line by line, tracking the byte offset, the
entry in progress with the length of its previous body line, and the
finished entries.  Every body line of a record except its last must have the
width fixed by the record's first body line; each line contributes its byte
length plus one terminator byte to the offset.  `none` models `FormatError`. -/
def indexLines : List String → Nat → Option (IndexEntry × Option Nat) →
    List IndexEntry → Option (List IndexEntry)
  | [], _, cur, acc => finalizeEntry cur acc
  | line :: rest, offset, cur, acc =>
    match line.toList with
    | c :: cs =>
      if c = gtChar then
        match finalizeEntry cur acc with
        | none => none
        | some acc2 =>
          let name := String.mk (cs.takeWhile (fun h => h ≠ spaceChar))
          indexLines rest (offset + line.length + 1)
            (some (⟨name, 0, offset + line.length + 1, 0, 0⟩, none)) acc2
      else
        match cur with
        | none => none
        | some (e, prevLen) =>
          match prevLen with
          | none =>
            indexLines rest (offset + line.length + 1)
              (some
                ({ e with
                    length := line.length
                    lineBases := line.length
                    lineWidth := line.length + 1 }, some line.length)) acc
          | some l =>
            if l ≠ e.lineBases then none
            else
              indexLines rest (offset + line.length + 1)
                (some ({ e with length := e.length + line.length },
                  some line.length)) acc
    | [] =>
      match cur with
      | none => none
      | some (e, prevLen) =>
        match prevLen with
        | none =>
          indexLines rest (offset + 1)
            (some
              ({ e with
                  length := 0
                  lineBases := 0
                  lineWidth := 1 }, some 0)) acc
        | some l =>
          if l ≠ e.lineBases then none
          else indexLines rest (offset + 1) (some (e, some 0)) acc

/-- `fasta::index`: build the `.fai` entries of a collection file given as
its list of lines. -/
def buildIndex (lines : List String) : Option (List IndexEntry) :=
  indexLines lines 0 none []

/-- `Sequences::get_reader`: when a companion index exists it is loaded as
is and nothing is written; otherwise the collection file is scanned, the
index is built and persisted.  The result pairs the index the reader will
use with the index file written, if any. -/
def getReader (lines : List String) (existingFai : Option (List IndexEntry)) :
    Except ExtractError (List IndexEntry × Option (List IndexEntry)) :=
  match existingFai with
  | some idx => Except.ok (idx, none)
  | none =>
    match buildIndex lines with
    | some idx => Except.ok (idx, some idx)
    | none => Except.error ExtractError.format

/-- Bytes of the collection file: each line followed by one terminator. -/
def fileBytes (lines : List String) : List Nat :=
  (lines.map (fun l => strBytes l ++ [10])).flatten

/-- Find an index entry by reference name. -/
def findEntry (idx : List IndexEntry) (name : String) : Option IndexEntry :=
  idx.find? (fun e => e.name = name)

/-- Seek position of 1-based coordinate `start` within a record:
offset + full-line count × bytes-per-line + remainder. -/
def seekPos (e : IndexEntry) (start : Nat) : Nat :=
  e.offset + ((start - 1) / e.lineBases) * e.lineWidth + ((start - 1) % e.lineBases)

/-- Read `count` logical symbols from byte position `pos`, skipping line
terminators. -/
def readRange (file : List Nat) (pos count : Nat) : List Nat :=
  ((file.drop pos).filter (fun b => b ≠ 10)).take count

/-- `reader.query(region)`: resolve the reference name through the index
(`NotFound` when absent), default the bounds to the whole record, require
them in bounds (the documented choice for out-of-range coordinates is an
error), and return a record named by the region's rendering together with
the queried bytes. -/
def query (idx : List IndexEntry) (lines : List String) (r : Region) :
    Except ExtractError (String × List Nat) :=
  match findEntry idx r.name with
  | none => Except.error (ExtractError.notFound r.name)
  | some e =>
    if 1 ≤ r.start?.getD 1 ∧ r.start?.getD 1 ≤ r.stop?.getD e.length ∧
        r.stop?.getD e.length ≤ e.length then
      Except.ok (regionToString r,
        readRange (fileBytes lines) (seekPos e (r.start?.getD 1))
          (r.stop?.getD e.length - r.start?.getD 1 + 1))
    else Except.error (ExtractError.range r.name (r.start?.getD 1) (r.stop?.getD e.length))

/-! The extraction pass (`Sequences::extract`) and the write stage
(`Sequences::write`). -/

/-- The mutable part of `Sequences`: the print order and the name-keyed
record map (`HashMap<String, Record>`, modelled as an association list with
replace-on-insert). -/
structure ExtractState where
  order : List String
  data : List (String × List Nat)
deriving Repr, DecidableEq

/-- `HashMap::get`: value of the first (only) binding of `k`. -/
def lookupData : List (String × List Nat) → String → Option (List Nat)
  | [], _ => none
  | p :: rest, k => if p.1 = k then some p.2 else lookupData rest k

/-- `HashMap::insert`: replace the existing binding of `k`, or add one. -/
def insertReplace : List (String × List Nat) → String → List Nat →
    List (String × List Nat)
  | [], k, v => [(k, v)]
  | p :: rest, k, v =>
    if p.1 = k then (k, v) :: rest else p :: insertReplace rest k v

/-- One iteration of the loop in `Sequences::extract`: query the region,
reverse-complement the record when the flag is set (keeping its name), push
the record name onto `order`, and insert the record into `data`. -/
def extractStep (idx : List IndexEntry) (lines : List String)
    (st : ExtractState) (rb : Region × Bool) : Except ExtractError ExtractState :=
  match query idx lines rb.1 with
  | Except.error e => Except.error e
  | Except.ok (name, seq) =>
    if rb.2 then
      match revComp seq with
      | Except.error b => Except.error (ExtractError.complement b)
      | Except.ok seq2 =>
        Except.ok ⟨st.order ++ [name], insertReplace st.data name seq2⟩
    else Except.ok ⟨st.order ++ [name], insertReplace st.data name seq⟩

/-- The loop of `Sequences::extract` over the parsed regions; the first
error aborts it. -/
def extractLoop (idx : List IndexEntry) (lines : List String) :
    List (Region × Bool) → ExtractState → Except ExtractError ExtractState
  | [], st => Except.ok st
  | rb :: rest, st =>
    match extractStep idx lines st rb with
    | Except.error e => Except.error e
    | Except.ok st2 => extractLoop idx lines rest st2

/-- The `Sequences` struct: print order, record map, the reader's index and
file, the parsed regions, and the regions file's stem. -/
structure Sequences where
  order : List String
  data : List (String × List Nat)
  readerIndex : List IndexEntry
  readerFile : List String
  regions : List (Region × Bool)
  regionsFilename : String
deriving Repr, DecidableEq

/-- `Sequences::new`: empty order and map, reader from `get_reader` (also
reporting the index file it may write), regions from `get_regions`. -/
def Sequences.new (fastaLines : List String) (existingFai : Option (List IndexEntry))
    (regionLines : List String) (regionsFilename : String) :
    Except ExtractError (Sequences × Option (List IndexEntry)) :=
  match getReader fastaLines existingFai with
  | Except.error e => Except.error e
  | Except.ok (idx, faiWritten) =>
    Except.ok
      ({ order := []
         data := []
         readerIndex := idx
         readerFile := fastaLines
         regions := getRegions regionLines
         regionsFilename := regionsFilename }, faiWritten)

/-- `Sequences::extract`. -/
def Sequences.extract (s : Sequences) : Except ExtractError Sequences :=
  match extractLoop s.readerIndex s.readerFile s.regions ⟨s.order, s.data⟩ with
  | Except.error e => Except.error e
  | Except.ok st => Except.ok { s with order := st.order, data := st.data }

/-- One entry of the merge concatenation in `Sequences::write`: look the key
up (the `expect` there panics when it is missing), reject an empty buffer
(`Position::try_from(0)` makes the position `expect` panic) and an invalid
UTF-8 buffer (the `str::from_utf8` `expect` panics), then append the gap, if
any, after the entry.  Panics are modelled as errors carrying the panic
message. -/
def mergeEntry (data : List (String × List Nat)) (gap : Option (List Nat))
    (k : String) : Except String (List Nat) :=
  match lookupData data k with
  | none => Except.error "could not get key"
  | some seq =>
    if seq.isEmpty then Except.error "could not get position"
    else if validUtf8 seq then Except.ok (seq ++ gap.getD [])
    else Except.error "could not convert sequence to String"

/-- The merged sequence of `Sequences::write`: one flattened pass over the
keys in order, each contributing its buffer followed by the gap (when a
nonzero gap size was given).  Joining the UTF-8 strings and taking the bytes
equals joining the byte buffers. -/
def mergeSequences (st : ExtractState) (gapSize : Nat) : Except String (List Nat) :=
  match mapExcept
      (mergeEntry st.data
        (if gapSize > 0 then some (List.replicate gapSize 78) else none))
      st.order with
  | Except.error e => Except.error e
  | Except.ok parts => Except.ok parts.flatten

/-- `Sequences::write` without the I/O sink: the records it writes, in
order.  Non-merge mode writes each keyed record (the `expect` on a missing
key panics); merge mode writes one record named by the explicit contig name
or the regions file's stem. -/
def writeRecords (st : ExtractState) (merge : Bool) (contigName : Option String)
    (regionsFilename : String) (gapSize : Nat) :
    Except String (List (String × List Nat)) :=
  if !merge then
    mapExcept
      (fun k =>
        match lookupData st.data k with
        | none => Except.error "could not get key"
        | some seq => Except.ok (k, seq))
      st.order
  else
    match mergeSequences st gapSize with
    | Except.error e => Except.error e
    | Except.ok merged =>
      Except.ok [(contigName.getD regionsFilename, merged)]

/-- Errors that abort a whole run: a propagated pipeline error or a panic. -/
inductive RunError where
  | fromExtract (e : ExtractError)
  | panicked (msg : String)
deriving Repr, DecidableEq

/-- Modelled from the spec: the current driver binary calling
`Sequences::{new, extract, write}` is not among the sources; per the spec it
is "strictly linear per invocation: build/load index → parse regions →
extract → (merge) → write".  The result pairs the records written to the
output destination with the index file written, if any; an error means the
run terminated with nothing written to the output destination. -/
def run (fastaLines : List String) (existingFai : Option (List IndexEntry))
    (regionLines : List String) (regionsFilename : String) (merge : Bool)
    (contigName : Option String) (gapSize : Nat) :
    Except RunError (List (String × List Nat) × Option (List IndexEntry)) :=
  match Sequences.new fastaLines existingFai regionLines regionsFilename with
  | Except.error e => Except.error (RunError.fromExtract e)
  | Except.ok (s, faiWritten) =>
    match s.extract with
    | Except.error e => Except.error (RunError.fromExtract e)
    | Except.ok s2 =>
      match writeRecords ⟨s2.order, s2.data⟩ merge contigName s2.regionsFilename gapSize with
      | Except.error msg => Except.error (RunError.panicked msg)
      | Except.ok recs => Except.ok (recs, faiWritten)

/-! Helper lemmas. -/

theorem mapExcept_ok_mem {α β ε : Type} {f : α → Except ε β} :
    ∀ {l : List α} {r : List β}, mapExcept f l = Except.ok r →
      ∀ a ∈ l, (f a).isOk = true := by
  intro l
  induction l with
  | nil => intro r _ a ha; cases ha
  | cons x xs ih =>
    intro r h a ha
    simp only [mapExcept] at h
    cases hx : f x with
    | error e => rw [hx] at h; cases h
    | ok b =>
      rw [hx] at h
      cases hr : mapExcept f xs with
      | error e => rw [hr] at h; cases h
      | ok bs =>
        cases ha with
        | head => simp [hx, Except.isOk, Except.toBool]
        | tail _ hmem => exact ih hr a hmem

theorem mapExcept_isOk_mem {α β ε : Type} {f : α → Except ε β} :
    ∀ {l : List α}, (mapExcept f l).isOk = true → ∀ a ∈ l, (f a).isOk = true := by
  intro l h
  cases hr : mapExcept f l with
  | error e => rw [hr] at h; cases h
  | ok r => exact mapExcept_ok_mem hr

theorem mapExcept_ok_of_forall {α β ε : Type} {f : α → Except ε β} {g : α → β} :
    ∀ {l : List α}, (∀ a ∈ l, f a = Except.ok (g a)) →
      mapExcept f l = Except.ok (l.map g) := by
  intro l
  induction l with
  | nil => intro _; rfl
  | cons x xs ih =>
    intro h
    have hx : f x = Except.ok (g x) := h x (List.mem_cons_self x xs)
    have hxs : mapExcept f xs = Except.ok (xs.map g) :=
      ih fun a ha => h a (List.mem_cons_of_mem x ha)
    simp [mapExcept, hx, hxs]

theorem mapExcept_ok_eq_map {α β ε : Type} {f : α → Except ε β} {g : α → β} :
    ∀ {l : List α} {r : List β}, mapExcept f l = Except.ok r →
      (∀ a ∈ l, ∀ b, f a = Except.ok b → b = g a) → r = l.map g := by
  intro l
  induction l with
  | nil => intro r h _; cases h; rfl
  | cons x xs ih =>
    intro r h hg
    simp only [mapExcept] at h
    cases hx : f x with
    | error e => rw [hx] at h; cases h
    | ok b =>
      rw [hx] at h
      cases hr : mapExcept f xs with
      | error e => rw [hr] at h; cases h
      | ok bs =>
        rw [hr] at h
        cases h
        have hb : b = g x := hg x (List.mem_cons_self x xs) b hx
        have hbs : bs = xs.map g :=
          ih hr fun a ha c hc => hg a (List.mem_cons_of_mem x ha) c hc
        rw [hb, hbs, List.map_cons]

theorem stepC_ok_iff {b c : Nat} : stepC b = Except.ok c ↔ complementByte b = some c := by
  unfold stepC
  cases h : complementByte b with
  | none => simp
  | some d => simp

theorem revComp_ok_eq {s t : List Nat} (h : revComp s = Except.ok t) :
    t = (s.map complOrId).reverse ∧ ∀ b ∈ s, (complementByte b).isSome = true := by
  unfold revComp at h
  constructor
  · have := mapExcept_ok_eq_map (g := complOrId) h ?_
    · rw [this, List.map_reverse]
    · intro a _ b hb
      rw [stepC_ok_iff] at hb
      simp [complOrId, hb]
  · intro b hb
    have hmem : b ∈ s.reverse := List.mem_reverse.mpr hb
    have hok := mapExcept_ok_mem h b hmem
    unfold stepC at hok
    cases hc : complementByte b with
    | none => rw [hc] at hok; simp [Except.isOk, Except.toBool] at hok
    | some c => simp

theorem revComp_of_all {s : List Nat} (h : ∀ b ∈ s, (complementByte b).isSome = true) :
    revComp s = Except.ok ((s.map complOrId).reverse) := by
  unfold revComp
  rw [← List.map_reverse]
  apply mapExcept_ok_of_forall
  intro a ha
  have hs := h a (List.mem_reverse.mp ha)
  cases hc : complementByte a with
  | none => rw [hc] at hs; simp at hs
  | some c => simp [stepC, hc, complOrId]

theorem revComp_isOk (s : List Nat) :
    (revComp s).isOk = s.all (fun b => (complementByte b).isSome) := by
  unfold revComp
  rw [← List.all_reverse]
  generalize s.reverse = l
  induction l with
  | nil => rfl
  | cons b rest ih =>
    simp only [mapExcept, List.all_cons]
    cases hb : complementByte b with
    | none => simp [stepC, hb, Except.isOk, Except.toBool]
    | some c =>
      simp only [stepC, hb, Option.isSome_some, Bool.true_and]
      cases hr : mapExcept stepC rest with
      | error e => rw [hr] at ih; simpa [Except.isOk, Except.toBool] using ih
      | ok bs => rw [hr] at ih; simpa [Except.isOk, Except.toBool] using ih

theorem lookup_insertReplace_self (d : List (String × List Nat)) (k : String)
    (v : List Nat) : lookupData (insertReplace d k v) k = some v := by
  induction d with
  | nil => simp [insertReplace, lookupData]
  | cons p rest ih =>
    by_cases hp : p.1 = k
    · simp [insertReplace, hp, lookupData]
    · simp [insertReplace, hp, lookupData, ih]

theorem lookup_insertReplace_other {d : List (String × List Nat)} {k k2 : String}
    (v : List Nat) (h : k2 ≠ k) :
    lookupData (insertReplace d k v) k2 = lookupData d k2 := by
  have h2 : ¬(k = k2) := fun hh => h hh.symm
  induction d with
  | nil => simp [insertReplace, lookupData, h2]
  | cons p rest ih =>
    by_cases hp : p.1 = k
    · simp [insertReplace, hp, lookupData, h2]
    · simp [insertReplace, hp, lookupData, ih]

theorem query_ok_name {idx : List IndexEntry} {lines : List String} {r : Region}
    {n : String} {s : List Nat} (h : query idx lines r = Except.ok (n, s)) :
    n = regionToString r := by
  unfold query at h
  split at h
  · cases h
  · split at h
    · simp only [Except.ok.injEq, Prod.mk.injEq] at h
      exact h.1.symm
    · cases h

theorem extractStep_ok_parts {idx : List IndexEntry} {lines : List String}
    {st st2 : ExtractState} {rb : Region × Bool}
    (h : extractStep idx lines st rb = Except.ok st2) :
    ∃ seq, st2.order = st.order ++ [regionToString rb.1] ∧
      st2.data = insertReplace st.data (regionToString rb.1) seq := by
  unfold extractStep at h
  cases hq : query idx lines rb.1 with
  | error e => rw [hq] at h; cases h
  | ok p =>
    obtain ⟨name, seq⟩ := p
    have hn : name = regionToString rb.1 := query_ok_name hq
    rw [hq] at h
    by_cases hrev : rb.2 = true
    · rw [hrev] at h
      simp only [if_true] at h
      cases hrc : revComp seq with
      | error b => rw [hrc] at h; cases h
      | ok seq2 =>
        rw [hrc] at h
        cases h
        exact ⟨seq2, by simp [hn], by simp [hn]⟩
    · rw [Bool.not_eq_true] at hrev
      rw [hrev] at h
      simp only [Bool.false_eq_true, if_false] at h
      cases h
      exact ⟨seq, by simp [hn], by simp [hn]⟩

theorem extractLoop_order {idx : List IndexEntry} {lines : List String} :
    ∀ {regions : List (Region × Bool)} {st0 st : ExtractState},
      extractLoop idx lines regions st0 = Except.ok st →
      st.order = st0.order ++ regions.map (fun rb => regionToString rb.1) := by
  intro regions
  induction regions with
  | nil => intro st0 st h; cases h; simp
  | cons rb rest ih =>
    intro st0 st h
    simp only [extractLoop] at h
    cases hs : extractStep idx lines st0 rb with
    | error e => rw [hs] at h; cases h
    | ok st1 =>
      rw [hs] at h
      obtain ⟨seq, ho, _⟩ := extractStep_ok_parts hs
      have := ih h
      rw [this, ho]
      simp

theorem extractLoop_lookup_invariant {idx : List IndexEntry} {lines : List String} :
    ∀ {regions : List (Region × Bool)} {st0 st : ExtractState},
      extractLoop idx lines regions st0 = Except.ok st →
      (∀ k ∈ st0.order, (lookupData st0.data k).isSome = true) →
      ∀ k ∈ st.order, (lookupData st.data k).isSome = true := by
  intro regions
  induction regions with
  | nil => intro st0 st h h0; cases h; exact h0
  | cons rb rest ih =>
    intro st0 st h h0
    simp only [extractLoop] at h
    cases hs : extractStep idx lines st0 rb with
    | error e => rw [hs] at h; cases h
    | ok st1 =>
      rw [hs] at h
      apply ih h
      obtain ⟨seq, ho, hd⟩ := extractStep_ok_parts hs
      intro k hk
      rw [ho] at hk
      rw [hd]
      by_cases hkk : k = regionToString rb.1
      · rw [hkk, lookup_insertReplace_self]; rfl
      · rw [lookup_insertReplace_other seq hkk]
        rcases List.mem_append.mp hk with hk0 | hk1
        · exact h0 k hk0
        · simp at hk1; exact absurd hk1 hkk

theorem extractLoop_ok_query_isOk {idx : List IndexEntry} {lines : List String} :
    ∀ {regions : List (Region × Bool)} {st0 st : ExtractState},
      extractLoop idx lines regions st0 = Except.ok st →
      ∀ rb ∈ regions, (query idx lines rb.1).isOk = true := by
  intro regions
  induction regions with
  | nil => intro st0 st _ rb hrb; cases hrb
  | cons x rest ih =>
    intro st0 st h rb hrb
    simp only [extractLoop] at h
    cases hs : extractStep idx lines st0 x with
    | error e => rw [hs] at h; cases h
    | ok st1 =>
      rw [hs] at h
      cases hrb with
      | head =>
        unfold extractStep at hs
        cases hq : query idx lines x.1 with
        | error e => rw [hq] at hs; cases hs
        | ok p => simp [hq, Except.isOk, Except.toBool]
      | tail _ hmem => exact ih h rb hmem

theorem map_self_of_pointwise {f : Nat → Nat} :
    ∀ {l : List Nat}, (∀ b ∈ l, f b = b) → l.map f = l := by
  intro l
  induction l with
  | nil => intro _; rfl
  | cons a rest ih =>
    intro h
    simp only [List.map_cons, h a (List.mem_cons_self a rest),
      ih fun b hb => h b (List.mem_cons_of_mem a hb)]

/-! The claims. -/

/-- Claim C1, evaluated at the failing input: in merge mode the gap is
appended after every entry, including the last one.  A single accumulated
entry `AC` with gap size 3 is written as `ACNNN`: three filler bytes after
the last entry, where the claim requires g×(n-1) = 0 filler bytes and none
after the last entry. -/
theorem c1_merge_gap_trails_last_entry :
    writeRecords ⟨["chr1:1-2"], [("chr1:1-2", strBytes "AC")]⟩ true none "regions" 3 =
      Except.ok [("regions", strBytes "ACNNN")] := rfl

/-- Claim C2: for every region with the reverse flag set the extracted
output is the queried byte range complemented symbol by symbol and
reversed; the complement pairs A↔T and C↔G hold case-preservingly, and the
region `-chr1:1-5` against a record `chr1` beginning `ACGTA` yields
`TACGT`. -/
theorem c2_reverse_complement :
    (complementByte 65 = some 84 ∧ complementByte 84 = some 65 ∧
      complementByte 67 = some 71 ∧ complementByte 71 = some 67 ∧
      complementByte 97 = some 116 ∧ complementByte 116 = some 97 ∧
      complementByte 99 = some 103 ∧ complementByte 103 = some 99) ∧
    (∀ s t : List Nat, revComp s = Except.ok t →
      t = (s.map complOrId).reverse ∧ ∀ b ∈ s, (complementByte b).isSome = true) ∧
    run [">chr1", "ACGTAGG"] none ["-chr1:1-5"] "regions" false none 0 =
      Except.ok ([("chr1:1-5", strBytes "TACGT")], some [⟨"chr1", 7, 6, 7, 8⟩]) := by
  refine ⟨by decide, ?_, rfl⟩
  intro s t h
  exact revComp_ok_eq h

/-- Witness for C2 at the concrete sequence `ACGTA`. -/
theorem c2_reverse_complement_witness :
    strBytes "TACGT" = ((strBytes "ACGTA").map complOrId).reverse :=
  (c2_reverse_complement.2.1 (strBytes "ACGTA") (strBytes "TACGT") rfl).1

/-- Claim C3 counterexample: extracting the same region twice puts its key
on the order list twice — the claim requires each key exactly once — while
the map keeps a single replaced buffer `AC` rather than an appended
accumulation. -/
theorem c3_order_duplicate_counterexample :
    extractLoop [⟨"chr1", 7, 6, 7, 8⟩] [">chr1", "ACGTAGG"]
        (getRegions ["chr1:1-2", "chr1:1-2"]) ⟨[], []⟩ =
      Except.ok ⟨["chr1:1-2", "chr1:1-2"], [("chr1:1-2", strBytes "AC")]⟩ ∧
    (["chr1:1-2", "chr1:1-2"].count "chr1:1-2") = 2 := ⟨rfl, by decide⟩

/-- Claim C3 (amended): after a successful extraction pass the key list
holds one entry per region — the rendered region string, in input order,
duplicates preserved — and inserting a record under an existing key
replaces the stored buffer instead of appending to it. -/
theorem c3_amended_order_and_replacement :
    (∀ (idx : List IndexEntry) (lines : List String)
        (regions : List (Region × Bool)) (st : ExtractState),
      extractLoop idx lines regions ⟨[], []⟩ = Except.ok st →
      st.order = regions.map (fun rb => regionToString rb.1)) ∧
    ∀ (d : List (String × List Nat)) (k : String) (v : List Nat),
      lookupData (insertReplace d k v) k = some v := by
  constructor
  · intro idx lines regions st h
    simpa using extractLoop_order h
  · exact lookup_insertReplace_self

/-- Witness for C3 (amended) at a duplicated concrete region. -/
theorem c3_amended_witness :
    (⟨["chr1:1-2", "chr1:1-2"], [("chr1:1-2", strBytes "AC")]⟩ : ExtractState).order =
      (getRegions ["chr1:1-2", "chr1:1-2"]).map (fun rb => regionToString rb.1) :=
  c3_amended_order_and_replacement.1 [⟨"chr1", 7, 6, 7, 8⟩] [">chr1", "ACGTAGG"]
    (getRegions ["chr1:1-2", "chr1:1-2"]) _ rfl

/-- Claim C7 counterexample: byte `Q` = 81 is not in the complement table
and the transform fails on it instead of passing it through unchanged; the
reversed region `-chr1` over the record `Q` aborts extraction with a
complement error. -/
theorem c7_pass_through_counterexample :
    complementByte 81 = none ∧
    revComp [81] = Except.error 81 ∧
    extractLoop [⟨"chr1", 1, 6, 1, 2⟩] [">chr1", "Q"] (getRegions ["-chr1"]) ⟨[], []⟩ =
      Except.error (ExtractError.complement 81) := ⟨rfl, rfl, rfl⟩

/-- Claim C7 (amended): the reverse-complement transform succeeds exactly
when every symbol of the input is in the complement table; any symbol
outside the table makes the transform fail rather than pass through. -/
theorem c7_amended_fails_outside_table (s : List Nat) :
    (revComp s).isOk = s.all (fun b => (complementByte b).isSome) :=
  revComp_isOk s

/-- Claim C6 counterexample: `AQG` is obtained by a valid in-bounds query,
but the reverse-complement transform fails on it (byte `Q` = 81 has no
complement), so applying the transform twice does not yield the original
bytes. -/
theorem c6_involution_counterexample :
    query [⟨"chr1", 3, 6, 3, 4⟩] [">chr1", "AQG"] ⟨"chr1", some 1, some 3⟩ =
      Except.ok ("chr1:1-3", strBytes "AQG") ∧
    (revComp (strBytes "AQG")).bind revComp = Except.error 81 ∧
    ((revComp (strBytes "AQG")).bind revComp).isOk = false := ⟨rfl, rfl, rfl⟩

/-- Claim C6 (amended): for every byte sequence obtained by a valid
in-bounds query all of whose symbols complement back to themselves under a
double complement (every table symbol except U/u; an out-of-table symbol
makes the transform fail instead), applying the reverse-complement
transform twice yields the original bytes. -/
theorem c6_amended_involution (idx : List IndexEntry) (lines : List String)
    (r : Region) (name : String) (s : List Nat)
    (_hq : query idx lines r = Except.ok (name, s))
    (hinv : ∀ b ∈ s, (complementByte b).bind complementByte = some b) :
    (revComp s).bind revComp = Except.ok s := by
  have hsome : ∀ b ∈ s, (complementByte b).isSome = true := by
    intro b hb
    have hbb := hinv b hb
    cases hc : complementByte b with
    | none => rw [hc] at hbb; cases hbb
    | some c => simp
  have hback : ∀ b ∈ s, complOrId (complOrId b) = b := by
    intro b hb
    have hbb := hinv b hb
    cases hc : complementByte b with
    | none => rw [hc] at hbb; cases hbb
    | some c =>
      rw [hc] at hbb
      simp only [Option.some_bind] at hbb
      simp [complOrId, hc, hbb]
  have hsome2 : ∀ b2 ∈ (s.map complOrId).reverse, (complementByte b2).isSome = true := by
    intro b2 hb2
    rw [List.mem_reverse] at hb2
    obtain ⟨b, hb, rfl⟩ := List.mem_map.mp hb2
    have hbb := hinv b hb
    cases hc : complementByte b with
    | none => rw [hc] at hbb; cases hbb
    | some c =>
      rw [hc] at hbb
      simp only [Option.some_bind] at hbb
      simp [complOrId, hc, hbb]
  rw [revComp_of_all hsome]
  show revComp ((s.map complOrId).reverse) = Except.ok s
  rw [revComp_of_all hsome2]
  rw [List.map_reverse, List.reverse_reverse, List.map_map]
  rw [show complOrId ∘ complOrId = fun b => complOrId (complOrId b) from rfl]
  rw [map_self_of_pointwise hback]

/-- Witness for C6 (amended) at the concrete query yielding `ACGTA`. -/
theorem c6_amended_witness :
    (revComp (strBytes "ACGTA")).bind revComp = Except.ok (strBytes "ACGTA") :=
  c6_amended_involution [⟨"chr1", 7, 6, 7, 8⟩] [">chr1", "ACGTAGG"]
    ⟨"chr1", some 1, some 5⟩ "chr1:1-5" (strBytes "ACGTA") rfl (by decide)

/-- Claim C9: after a successful extraction pass every name on the order
list is a key of the record map, so each lookup the write stage performs
for a key drawn from the order list succeeds and its `could not get key`
panic branch is unreachable. -/
theorem c9_order_keys_present (idx : List IndexEntry) (lines : List String)
    (regions : List (Region × Bool)) (st : ExtractState)
    (h : extractLoop idx lines regions ⟨[], []⟩ = Except.ok st) :
    ∀ k ∈ st.order, (lookupData st.data k).isSome = true := by
  apply extractLoop_lookup_invariant h
  intro k hk
  simp at hk

/-- Witness for C9 at a concrete extraction pass. -/
theorem c9_order_keys_present_witness :
    (lookupData [("chr1:1-2", strBytes "AC")] "chr1:1-2").isSome = true :=
  c9_order_keys_present [⟨"chr1", 7, 6, 7, 8⟩] [">chr1", "ACGTAGG"]
    (getRegions ["chr1:1-2", "chr1:1-2"])
    ⟨["chr1:1-2", "chr1:1-2"], [("chr1:1-2", strBytes "AC")]⟩ rfl
    "chr1:1-2" (by decide)

/-- Claim C10: the merge concatenation passes every stored buffer through a
UTF-8 conversion whose failure branch panics: it succeeds only when every
buffer reached through the order list is valid UTF-8, and an invalid buffer
makes it panic with the conversion message instead of returning an error. -/
theorem c10_merge_requires_utf8 :
    (∀ (st : ExtractState) (gapSize : Nat),
      (mergeSequences st gapSize).isOk = true →
      ∀ k ∈ st.order, ∀ seq, lookupData st.data k = some seq →
        validUtf8 seq = true) ∧
    mergeSequences ⟨["k1"], [("k1", [255])]⟩ 0 =
      Except.error "could not convert sequence to String" := by
  constructor
  · intro st gap h k hk seq hseq
    unfold mergeSequences at h
    cases hm : mapExcept
        (mergeEntry st.data (if gap > 0 then some (List.replicate gap 78) else none))
        st.order with
    | error e => rw [hm] at h; simp [Except.isOk, Except.toBool] at h
    | ok parts =>
      have hent := mapExcept_ok_mem hm k hk
      unfold mergeEntry at hent
      rw [hseq] at hent
      by_cases hv : validUtf8 seq = true
      · exact hv
      · exfalso
        by_cases he : seq.isEmpty = true
        · simp [he, Except.isOk, Except.toBool] at hent
        · simp [he, hv, Except.isOk, Except.toBool] at hent
  · rfl

/-- Witness for C10 at a valid concrete merge. -/
theorem c10_merge_requires_utf8_witness : validUtf8 (strBytes "AC") = true :=
  c10_merge_requires_utf8.1 ⟨["a"], [("a", strBytes "AC")]⟩ 0 rfl "a" (by decide)
    (strBytes "AC") rfl

theorem run_eq (fastaLines : List String) (existingFai : Option (List IndexEntry))
    (regionLines : List String) (rf : String) (merge : Bool)
    (cn : Option String) (gap : Nat) :
    run fastaLines existingFai regionLines rf merge cn gap =
      match getReader fastaLines existingFai with
      | Except.error e => Except.error (RunError.fromExtract e)
      | Except.ok (idx, w) =>
        match extractLoop idx fastaLines (getRegions regionLines) ⟨[], []⟩ with
        | Except.error e => Except.error (RunError.fromExtract e)
        | Except.ok st =>
          match writeRecords ⟨st.order, st.data⟩ merge cn rf gap with
          | Except.error msg => Except.error (RunError.panicked msg)
          | Except.ok recs => Except.ok (recs, w) := by
  unfold run Sequences.new
  cases hr : getReader fastaLines existingFai with
  | error e => rfl
  | ok p =>
    obtain ⟨idx, w⟩ := p
    simp only [Sequences.extract]
    cases hl : extractLoop idx fastaLines (getRegions regionLines) ⟨[], []⟩ with
    | error e => rfl
    | ok st => rfl

/-- Claim C4: a region naming a reference absent from the index makes its
query fail with `NotFound`; the error terminates the run, and an aborted run
yields no output records (the destination is never reached). -/
theorem c4_not_found_aborts (fastaLines : List String)
    (existingFai : Option (List IndexEntry)) (regionLines : List String)
    (regionsFilename : String) (merge : Bool) (contigName : Option String)
    (gapSize : Nat) (idx : List IndexEntry) (w : Option (List IndexEntry))
    (rb : Region × Bool)
    (hread : getReader fastaLines existingFai = Except.ok (idx, w))
    (hmem : rb ∈ getRegions regionLines)
    (habs : findEntry idx rb.1.name = none) :
    query idx fastaLines rb.1 = Except.error (ExtractError.notFound rb.1.name) ∧
    ∃ e, run fastaLines existingFai regionLines regionsFilename merge
      contigName gapSize = Except.error e := by
  have hq : query idx fastaLines rb.1 =
      Except.error (ExtractError.notFound rb.1.name) := by
    unfold query
    rw [habs]
  refine ⟨hq, ?_⟩
  rw [run_eq]
  simp only [hread]
  cases hloop : extractLoop idx fastaLines (getRegions regionLines) ⟨[], []⟩ with
  | error e => exact ⟨RunError.fromExtract e, by simp only [hloop]⟩
  | ok st =>
    exfalso
    have hok := extractLoop_ok_query_isOk hloop rb hmem
    rw [hq] at hok
    simp [Except.isOk, Except.toBool] at hok

/-- Witness for C4 at a region naming the unknown reference `chrX`. -/
theorem c4_not_found_aborts_witness :
    query [⟨"chr1", 7, 6, 7, 8⟩] [">chr1", "ACGTAGG"] ⟨"chrX", some 1, some 2⟩ =
      Except.error (ExtractError.notFound "chrX") ∧
    ∃ e, run [">chr1", "ACGTAGG"] none ["chrX:1-2"] "regions" false none 0 =
      Except.error e :=
  c4_not_found_aborts [">chr1", "ACGTAGG"] none ["chrX:1-2"] "regions" false none 0
    [⟨"chr1", 7, 6, 7, 8⟩] (some [⟨"chr1", 7, 6, 7, 8⟩])
    (⟨"chrX", some 1, some 2⟩, false) rfl (by decide) rfl

/-- Claim C5: the region parser processes lines independently — it
distributes over concatenation, so line order and duplicates are preserved —
an optional leading `-` is stripped and sets the reverse flag, and a line
that fails to parse is skipped without failing the run. -/
theorem c5_region_parsing :
    (∀ l1 l2 : List String, getRegions (l1 ++ l2) = getRegions l1 ++ getRegions l2) ∧
    (∀ s : String, parseLine (String.mk (dashChar :: s.toList)) =
      (parseRegion s).map (fun r => (r, true))) ∧
    (∀ line : String, line.toList.head? ≠ some dashChar →
      parseLine line = (parseRegion line).map (fun r => (r, false))) ∧
    (∀ (line : String) (lines : List String), parseLine line = none →
      getRegions (line :: lines) = getRegions lines) := by
  refine ⟨?_, ?_, ?_, ?_⟩
  · intro l1 l2
    exact List.filterMap_append l1 l2 parseLine
  · intro s
    rfl
  · intro line hne
    unfold parseLine
    cases hl : line.toList with
    | nil =>
      unfold parseRegion
      rw [hl]
      rfl
    | cons c cs =>
      have hc : ¬(c = dashChar) := by
        intro hcc
        exact hne (by rw [hl, hcc]; rfl)
      simp [hc]
  · intro line lines h
    simp [getRegions, List.filterMap_cons, h]

/-- Witness for C5 at concrete region lines. -/
theorem c5_region_parsing_witness :
    getRegions (["-chr1:1-5"] ++ ["chr2"]) =
      getRegions ["-chr1:1-5"] ++ getRegions ["chr2"] ∧
    parseLine "chr2" = (parseRegion "chr2").map (fun r => (r, false)) ∧
    getRegions ["-", "chr2"] = getRegions ["chr2"] :=
  ⟨c5_region_parsing.1 ["-chr1:1-5"] ["chr2"],
   c5_region_parsing.2.2.1 "chr2" (by decide),
   c5_region_parsing.2.2.2 "-" ["chr2"] rfl⟩

/-- Claim C8: opening the store with an existing companion index loads it
as is — nothing is rebuilt or written — and without one the collection file
is scanned, the index built from it and persisted; a run then answers its
queries with exactly that loaded or built index, whose persistence is
decided before any query runs. -/
theorem c8_index_load_or_build :
    (∀ (lines : List String) (idx : List IndexEntry),
      getReader lines (some idx) = Except.ok (idx, none)) ∧
    (∀ (lines : List String) (idx : List IndexEntry), buildIndex lines = some idx →
      getReader lines none = Except.ok (idx, some idx)) ∧
    (∀ (lines regionLines : List String) (idx : List IndexEntry)
        (rf : String) (merge : Bool) (cn : Option String) (gap : Nat)
        (res : List (String × List Nat) × Option (List IndexEntry)),
      run lines (some idx) regionLines rf merge cn gap = Except.ok res →
      res.2 = none) ∧
    (∀ (lines regionLines : List String) (idx : List IndexEntry)
        (rf : String) (merge : Bool) (cn : Option String) (gap : Nat)
        (res : List (String × List Nat) × Option (List IndexEntry)),
      buildIndex lines = some idx →
      run lines none regionLines rf merge cn gap = Except.ok res →
      res.2 = some idx) := by
  refine ⟨fun lines idx => rfl, ?_, ?_, ?_⟩
  · intro lines idx h
    unfold getReader
    rw [h]
  · intro lines regionLines idx rf merge cn gap res h
    rw [run_eq] at h
    simp only [getReader] at h
    cases hloop : extractLoop idx lines (getRegions regionLines) ⟨[], []⟩ with
    | error e => simp only [hloop] at h; cases h
    | ok st =>
      simp only [hloop] at h
      cases hw : writeRecords ⟨st.order, st.data⟩ merge cn rf gap with
      | error msg => simp only [hw] at h; cases h
      | ok recs =>
        simp only [hw, Except.ok.injEq] at h
        rw [← h]
  · intro lines regionLines idx rf merge cn gap res hb h
    rw [run_eq] at h
    simp only [getReader, hb] at h
    cases hloop : extractLoop idx lines (getRegions regionLines) ⟨[], []⟩ with
    | error e => simp only [hloop] at h; cases h
    | ok st =>
      simp only [hloop] at h
      cases hw : writeRecords ⟨st.order, st.data⟩ merge cn rf gap with
      | error msg => simp only [hw] at h; cases h
      | ok recs =>
        simp only [hw, Except.ok.injEq] at h
        rw [← h]

/-- Witness for C8 at a concrete collection file. -/
theorem c8_index_load_or_build_witness :
    getReader [">chr1", "ACGTAGG"] none =
      Except.ok ([⟨"chr1", 7, 6, 7, 8⟩], some [⟨"chr1", 7, 6, 7, 8⟩]) ∧
    (([("chr1:1-2", strBytes "AC")],
        some [(⟨"chr1", 7, 6, 7, 8⟩ : IndexEntry)]) :
      List (String × List Nat) × Option (List IndexEntry)).2 =
        some [⟨"chr1", 7, 6, 7, 8⟩] :=
  ⟨c8_index_load_or_build.2.1 [">chr1", "ACGTAGG"] [⟨"chr1", 7, 6, 7, 8⟩] rfl,
   c8_index_load_or_build.2.2.2 [">chr1", "ACGTAGG"] ["chr1:1-2"]
     [⟨"chr1", 7, 6, 7, 8⟩] "regions" false none 0
     ([("chr1:1-2", strBytes "AC")], some [⟨"chr1", 7, 6, 7, 8⟩]) rfl rfl⟩

end Extract
